import Mathlib

/-!
Verification development for the howell-brain coordination daemon.

Shallow embedding of the task queue (`src/task_queue.py`), the handoff
store (`src/agent_db.py`), the instance registry
(`src/instance_registry.py`), the knowledge-graph merge tool
(`src/mcp_transport.py`) and the durable-store loaders
(`src/howell_bridge.py`, `src/task_queue.py`), together with theorems
settling the behavioural claims about them.

Python dicts holding task / handoff / instance records become Lean
structures; the on-disk JSON list of tasks becomes a `List Task` in
creation order (`create_task` appends); wall-clock timestamps and
generated ids are passed in as explicit parameters.
-/

namespace HowellBrain

/-! ## Task queue data model (src/task_queue.py) -/

structure Scope where
  files : List String
  directories : List String
  tags : List String
deriving Repr, DecidableEq

structure NoteEntry where
  timestamp : String
  note : String
deriving Repr, DecidableEq

structure Task where
  id : String
  title : String
  description : String
  project : String
  scope : Scope
  priority : String
  status : String
  dependencies : List String
  created_by : String
  created_at : String
  claimed_by : Option String
  claimed_at : Option String
  started_at : Option String
  completed_at : Option String
  result : Option String
  artifacts : List String
  notes : List NoteEntry
deriving Repr, DecidableEq

/-- Python `s.replace("\\", "/")`: the pattern is a single character,
so the replacement is the character-wise map over the string. -/
def slashify (s : String) : List Char :=
  s.data.map (fun c => if c == '\\' then '/' else c)

/-- Python `s.rstrip("/")`: drop every trailing forward slash. -/
def rstripSlashes (cs : List Char) : List Char :=
  (cs.reverse.dropWhile (fun c => c == '/')).reverse

/-- Directory normalisation from `_scopes_overlap`:
`da.replace("\\", "/").rstrip("/") + "/"`, kept as the character list
of the result; `str.startswith(p)` is then the list prefix test on the
characters. -/
def normDir (d : String) : List Char :=
  rstripSlashes (slashify d) ++ ['/']

/-- `_scopes_overlap` from src/task_queue.py lines 156-182.  Returns the
conflict list.  The Python version materialises the file and tag
intersections through `set`, which can reorder and deduplicate the
conflict strings; every caller only tests the list for non-emptiness,
which coincides with the list-filter intersections used here.  The
Python separator inside the dir conflict string is a unicode arrow;
the exact text is never inspected by callers. -/
def _scopes_overlap (a b : Scope) : List String :=
  let fileOverlap := a.files.filter (fun f => b.files.contains f)
  let dirOverlap := a.directories.flatMap (fun da =>
    (b.directories.filter (fun db =>
      List.isPrefixOf (normDir db) (normDir da) || List.isPrefixOf (normDir da) (normDir db))).map
      (fun db => "dir:" ++ da ++ " <-> " ++ db))
  let tagOverlap := a.tags.filter (fun t => b.tags.contains t)
  fileOverlap.map (fun f => "file:" ++ f) ++ dirOverlap ++ tagOverlap.map (fun t => "tag:" ++ t)

/-- Python truthiness of the conflict list (`if _scopes_overlap(...)`). -/
def hasConflict (a b : Scope) : Bool :=
  !(_scopes_overlap a b).isEmpty

/-- `priority_order = {"critical": 0, "high": 1, "medium": 2, "low": 3}`
with `.get(priority, 2)` for unknown names. -/
def priority_order (p : String) : Nat :=
  if p == "critical" then 0
  else if p == "high" then 1
  else if p == "medium" then 2
  else if p == "low" then 3
  else 2

def isActiveStatus (s : String) : Bool :=
  s == "claimed" || s == "in-progress"

/-- Dependency gate used by `get_available_tasks`:
`if deps and not all(d in completed_ids for d in deps): continue`
(the guard is equivalent to `all`, the empty list passing vacuously). -/
def depsMet (completed_ids : List String) (t : Task) : Bool :=
  t.dependencies.all (fun d => completed_ids.contains d)

/-- `completed_ids = {t["id"] for t in tasks if t["status"] == "completed"}`
(the set is only used for membership tests, so a list of the ids serves). -/
def completedIds (tasks : List Task) : List String :=
  (tasks.filter (fun t => t.status == "completed")).map (fun t => t.id)

/-- `in_progress_scopes`: the scopes of the tasks in claimed / in-progress. -/
def inProgressScopes (tasks : List Task) : List Scope :=
  (tasks.filter (fun t => isActiveStatus t.status)).map (fun t => t.scope)

/-- The body of the availability loop in `get_available_tasks`: pending,
dependencies all completed, no scope conflict with in-progress work. -/
def availableFilter (tasks : List Task) (t : Task) : Bool :=
  t.status == "pending" &&
  depsMet (completedIds tasks) t &&
  !((inProgressScopes tasks).any (fun s => hasConflict t.scope s))

/-- The sort key comparison `priority_order.get(t["priority"], 2)` used by
`available.sort`. -/
def priorityLe (a b : Task) : Bool :=
  decide (priority_order a.priority ≤ priority_order b.priority)

/-- `get_available_tasks` from src/task_queue.py lines 185-224.  Python's
`list.sort` is a stable mergesort; `List.mergeSort` matches it. -/
def get_available_tasks (tasks : List Task) : List Task :=
  (tasks.filter (availableFilter tasks)).mergeSort priorityLe

/-- `create_task` from src/task_queue.py lines 106-149.  The generated
id and timestamp arrive as parameters. -/
def create_task (tasks : List Task) (task_id title description project : String)
    (scope : Scope) (priority : String) (dependencies : List String)
    (created_by now : String) : Task × List Task :=
  let task : Task :=
    { id := task_id, title := title, description := description,
      project := project, scope := scope, priority := priority,
      status := "pending", dependencies := dependencies,
      created_by := created_by, created_at := now,
      claimed_by := none, claimed_at := none, started_at := none,
      completed_at := none, result := none, artifacts := [], notes := [] }
  (task, tasks ++ [task])

/-- In-place mutation of the first task whose id matches (the object
found by the Python scan). -/
def replaceFirst (tasks : List Task) (tid : String) (t' : Task) : List Task :=
  match tasks with
  | [] => []
  | t :: ts => if t.id == tid then t' :: ts else t :: replaceFirst ts tid t'

/-- `claim_task` from src/task_queue.py lines 227-258.  Note that the
source re-checks only the status and the scope conflicts inside the
lock; the dependency list is not examined. -/
def claim_task (tasks : List Task) (task_id instance_id now : String) :
    Option Task × List Task :=
  match tasks.find? (fun t => t.id == task_id) with
  | none => (none, tasks)
  | some task =>
    if task.status != "pending" then (none, tasks)
    else
      let in_progress := tasks.filter (fun t => isActiveStatus t.status && t.id != task_id)
      if in_progress.any (fun ip => hasConflict task.scope ip.scope) then (none, tasks)
      else
        let claimed : Task :=
          { task with status := "claimed", claimed_by := some instance_id,
                      claimed_at := some now }
        (some claimed, replaceFirst tasks task_id claimed)

/-- The `for t in tasks: if t["id"] == task_id: ...` loop shared by
`start_task`, `complete_task`, `fail_task`, `release_task` and
`update_task`: the first task with the wanted id is inspected; `f`
returns the mutated task, or `none` for the guard-failure early
return that leaves the store untouched. -/
def overFirst (tid : String) (f : Task → Option Task) :
    List Task → Option Task × List Task
  | [] => (none, [])
  | t :: ts =>
    if t.id == tid then
      match f t with
      | none => (none, t :: ts)
      | some t' => (some t', t' :: ts)
    else
      let r := overFirst tid f ts
      (r.1, t :: r.2)

/-- `start_task` from src/task_queue.py lines 261-275. -/
def start_task (tasks : List Task) (task_id instance_id now : String) :
    Option Task × List Task :=
  overFirst task_id (fun t =>
    if t.status != "claimed" || t.claimed_by != some instance_id then none
    else some { t with status := "in-progress", started_at := some now }) tasks

/-- `complete_task` from src/task_queue.py lines 297-319.  The guard
checks only `claimed_by`; in particular `claimed_by` is *not* cleared.
`t["artifacts"].extend(artifacts)` runs only when the argument is
non-empty, which coincides with plain append. -/
def complete_task (tasks : List Task) (task_id instance_id res : String)
    (artifacts : List String) (now : String) : Option Task × List Task :=
  overFirst task_id (fun t =>
    if t.claimed_by != some instance_id then none
    else some { t with status := "completed", completed_at := some now,
                       result := some res,
                       artifacts := t.artifacts ++ artifacts }) tasks

/-- `fail_task` from src/task_queue.py lines 322-344. -/
def fail_task (tasks : List Task) (task_id instance_id reason now : String) :
    Option Task × List Task :=
  overFirst task_id (fun t =>
    if t.claimed_by != some instance_id then none
    else some { t with
      notes := t.notes ++
        [{ timestamp := now, note := "FAILED by " ++ instance_id ++ ": " ++ reason }],
      status := "pending", claimed_by := none, claimed_at := none,
      started_at := none }) tasks

/-- `release_task` from src/task_queue.py lines 347-369. -/
def release_task (tasks : List Task) (task_id instance_id now : String) :
    Option Task × List Task :=
  overFirst task_id (fun t =>
    if t.claimed_by != some instance_id then none
    else if !(isActiveStatus t.status) then none
    else some { t with
      notes := t.notes ++
        [{ timestamp := now, note := "Released by " ++ instance_id ++ " (session ending)" }],
      status := "pending", claimed_by := none, claimed_at := none,
      started_at := none }) tasks

/-- The keyword arguments `update_task` accepts: only the keys in
`("title", "description", "project", "priority", "scope", "dependencies")`
are applied, any other key is ignored, which is the same as its absence. -/
structure TaskUpdate where
  title : Option String := none
  description : Option String := none
  project : Option String := none
  priority : Option String := none
  scope : Option Scope := none
  dependencies : Option (List String) := none
deriving Repr, DecidableEq

def applyUpdate (u : TaskUpdate) (t : Task) : Task :=
  { t with
    title := u.title.getD t.title,
    description := u.description.getD t.description,
    project := u.project.getD t.project,
    priority := u.priority.getD t.priority,
    scope := u.scope.getD t.scope,
    dependencies := u.dependencies.getD t.dependencies }

/-- `update_task` from src/task_queue.py lines 376-392. -/
def update_task (tasks : List Task) (task_id : String) (u : TaskUpdate) :
    Option Task × List Task :=
  overFirst task_id (fun t =>
    if t.status != "pending" then none
    else some (applyUpdate u t)) tasks

def autoReleaseMatch (instance_id : String) (t : Task) : Bool :=
  t.claimed_by == some instance_id && isActiveStatus t.status

def autoRelease (instance_id now : String) (t : Task) : Task :=
  { t with
    notes := t.notes ++
      [{ timestamp := now,
         note := "Auto-released: instance " ++ instance_id ++ " disconnected" }],
    status := "pending", claimed_by := none, claimed_at := none,
    started_at := none }

/-- `release_all_for_instance` from src/task_queue.py lines 564-583.
The Python loop mutates each matching task in place and counts them;
element-wise that is a `map` plus a `countP`. -/
def release_all_for_instance (tasks : List Task) (instance_id now : String) :
    Nat × List Task :=
  (tasks.countP (fun t => autoReleaseMatch instance_id t),
   tasks.map (fun t =>
     if autoReleaseMatch instance_id t then autoRelease instance_id now t else t))

/-- The task-queue operations named by the store-invariant claims. -/
inductive Op where
  | create (task_id title description project : String) (scope : Scope)
      (priority : String) (dependencies : List String) (created_by now : String)
  | claim (task_id instance_id now : String)
  | start (task_id instance_id now : String)
  | complete (task_id instance_id res : String) (artifacts : List String) (now : String)
  | fail (task_id instance_id reason now : String)
  | release (task_id instance_id now : String)
  | releaseAll (instance_id now : String)

def apply_op (tasks : List Task) : Op → List Task
  | .create tid ttl d p sc pr deps cb now => (create_task tasks tid ttl d p sc pr deps cb now).2
  | .claim tid iid now => (claim_task tasks tid iid now).2
  | .start tid iid now => (start_task tasks tid iid now).2
  | .complete tid iid r arts now => (complete_task tasks tid iid r arts now).2
  | .fail tid iid reason now => (fail_task tasks tid iid reason now).2
  | .release tid iid now => (release_task tasks tid iid now).2
  | .releaseAll iid now => (release_all_for_instance tasks iid now).2

def run_ops (tasks : List Task) (ops : List Op) : List Task :=
  ops.foldl apply_op tasks

/-! ## Handoffs (src/agent_db.py)

The `handoffs` table of the stratigraphy database, modelled as a list of
rows.  `id` is `INTEGER PRIMARY KEY AUTOINCREMENT`, so a real table never
holds two rows with one id; theorems that need that take it as a `Nodup`
hypothesis. -/

structure Handoff where
  id : Nat
  from_agent : String
  to_scope : String
  content : String
  priority : String
  claimed_by : Option String
  created_at : String
  claimed_at : Option String
deriving Repr, DecidableEq

/-- The row filter of the conditional
`UPDATE handoffs SET claimed_by = ?, claimed_at = ? WHERE id = ? AND claimed_by IS NULL`. -/
def handoffClaimable (hid : Nat) (h : Handoff) : Bool :=
  h.id == hid && h.claimed_by == none

/-- `claim_handoff` from src/agent_db.py lines 437-455: run the
compare-and-set UPDATE, read `cursor.rowcount`, and on a non-zero count
re-SELECT the row by id. -/
def claim_handoff (db : List Handoff) (hid : Nat) (agent_id now : String) :
    Option Handoff × List Handoff :=
  let updated := db.map (fun h =>
    if handoffClaimable hid h
    then { h with claimed_by := some agent_id, claimed_at := some now }
    else h)
  if db.countP (fun h => handoffClaimable hid h) == 0 then (none, db)
  else (updated.find? (fun h => h.id == hid), updated)

/-! ## Instance registry (src/instance_registry.py)

The in-memory `_instances` dict, modelled as a list of records in
insertion order; ids are fresh uuids.  Wall-clock readings
(`time.time()`) are passed in as an integer `now_ts`; the iso-format
strings as opaque parameters. -/

structure Instance where
  id : String
  workspace : String
  platform : String
  status : String
  activity : String
  active_files : List String
  registered_at : String
  last_heartbeat : String
  last_heartbeat_ts : Int
  heartbeat_count : Nat
deriving Repr, DecidableEq

def EXPIRY_SECONDS : Int := 600

/-- `_purge_expired` from src/instance_registry.py lines 201-210: drop
every record whose last heartbeat is more than `EXPIRY_SECONDS` old. -/
def _purge_expired (now_ts : Int) (m : List Instance) : List Instance :=
  m.filter (fun r => !(decide (now_ts - r.last_heartbeat_ts > EXPIRY_SECONDS)))

/-- `register` from src/instance_registry.py lines 32-58 (fresh id and
iso timestamp passed in). -/
def register (m : List Instance) (instance_id workspace platform status : String)
    (now_ts : Int) (iso : String) : Instance × List Instance :=
  let record : Instance :=
    { id := instance_id, workspace := workspace, platform := platform,
      status := status, activity := "", active_files := [],
      registered_at := iso, last_heartbeat := iso,
      last_heartbeat_ts := now_ts, heartbeat_count := 0 }
  (record, _purge_expired now_ts m ++ [record])

def bumpHeartbeat (now_ts : Int) (iso : String) (statusOpt : Option String)
    (r : Instance) : Instance :=
  { r with last_heartbeat := iso, last_heartbeat_ts := now_ts,
           heartbeat_count := r.heartbeat_count + 1,
           status := statusOpt.getD r.status }

/-- `heartbeat` from src/instance_registry.py lines 61-75: purge, then
bump the found record's timestamps and count. -/
def heartbeat (m : List Instance) (instance_id : String) (statusOpt : Option String)
    (now_ts : Int) (iso : String) : Option Instance × List Instance :=
  let m1 := _purge_expired now_ts m
  match m1.find? (fun r => r.id == instance_id) with
  | none => (none, m1)
  | some r =>
    (some (bumpHeartbeat now_ts iso statusOpt r),
     m1.map (fun x => if x.id == instance_id then bumpHeartbeat now_ts iso statusOpt x else x))

/-- `update_status` from src/instance_registry.py lines 78-96.  Note the
source takes the lock but does **not** call `_purge_expired`, and never
reads the clock. -/
def update_status (m : List Instance) (instance_id : String)
    (statusOpt activityOpt : Option String) (filesOpt : Option (List String)) :
    Option Instance × List Instance :=
  match m.find? (fun r => r.id == instance_id) with
  | none => (none, m)
  | some r =>
    let r' : Instance :=
      { r with status := statusOpt.getD r.status,
               activity := activityOpt.getD r.activity,
               active_files := filesOpt.getD r.active_files }
    (some r', m.map (fun x => if x.id == instance_id then r' else x))

structure FileConflict where
  file : String
  instance_id : String
  workspace : String
  platform : String
  activity : String
deriving Repr, DecidableEq

/-- `check_conflicts` from src/instance_registry.py lines 99-117.  Python
intersects through `set`, which only reorders the conflict records;
the filter below lists the same overlapping files. -/
def check_conflicts (m : List Instance) (instance_id : String) (files : List String)
    (now_ts : Int) : List FileConflict × List Instance :=
  let m1 := _purge_expired now_ts m
  (m1.flatMap (fun r =>
    if r.id == instance_id then []
    else (files.filter (fun f => r.active_files.contains f)).map (fun f =>
      { file := f, instance_id := r.id, workspace := r.workspace,
        platform := r.platform, activity := r.activity })), m1)

/-- `deregister` from src/instance_registry.py lines 120-126: no purge. -/
def deregister (m : List Instance) (instance_id : String) : Bool × List Instance :=
  (m.any (fun r => r.id == instance_id), m.filter (fun r => !(r.id == instance_id)))

/-- `list_instances` from src/instance_registry.py lines 129-138 (the
returned copies carry an extra derived `age_seconds` field, irrelevant
to the stored state and omitted here). -/
def list_instances (m : List Instance) (now_ts : Int) : List Instance × List Instance :=
  let m1 := _purge_expired now_ts m
  (m1, m1)

/-- `get_instance` from src/instance_registry.py lines 141-149. -/
def get_instance (m : List Instance) (instance_id : String) (now_ts : Int) :
    Option Instance × List Instance :=
  let m1 := _purge_expired now_ts m
  (m1.find? (fun r => r.id == instance_id), m1)

/-- `instance_count` from src/instance_registry.py lines 152-156. -/
def instance_count (m : List Instance) (now_ts : Int) : Nat × List Instance :=
  ((_purge_expired now_ts m).length, _purge_expired now_ts m)

/-! ## Knowledge graph and entity merge (src/howell_bridge.py,
src/mcp_transport.py)

`KnowledgeGraph.entities` is a Python dict from name to entity; it is
modelled as an association list in insertion order. -/

structure Entity where
  name : String
  entity_type : String
  observations : List String
  created : String
deriving Repr, DecidableEq

structure Relation where
  from_entity : String
  relation_type : String
  to_entity : String
  created : String
deriving Repr, DecidableEq

structure KnowledgeGraph where
  entities : List (String × Entity)
  relations : List Relation
  last_sync : String
deriving Repr, DecidableEq

/-- Dict lookup `kg.entities[name]` (first entry wins, as in a dict where
keys are unique). -/
def kgFind (kg : KnowledgeGraph) (name : String) : Option Entity :=
  (kg.entities.find? (fun p => p.1 == name)).map (fun p => p.2)

/-- The relation repointing loop of `_tool_merge_entities`: endpoints
equal to the source are rewritten to the target. -/
def redirectRel (source target : String) (r : Relation) : Relation :=
  { r with
    from_entity := if r.from_entity == source then target else r.from_entity,
    to_entity := if r.to_entity == source then target else r.to_entity }

def relKey (r : Relation) : String × String × String :=
  (r.from_entity, r.relation_type, r.to_entity)

/-- The dedup/self-loop pass of `_tool_merge_entities`: keep a relation
iff its triple was not seen yet and it is not a self-loop; only kept
triples enter `seen`. -/
def dedupRels (seen : List (String × String × String)) :
    List Relation → List Relation
  | [] => []
  | r :: rs =>
    if !(seen.contains (relKey r)) && r.from_entity != r.to_entity
    then r :: dedupRels (relKey r :: seen) rs
    else dedupRels seen rs

/-- The observation merge of `_tool_merge_entities` lines 525-529:
`existing` is the **pre-merge** set of the target's observations and is
never extended inside the loop, so each source observation is appended
iff it is absent from the pre-merge target list. -/
def mergeObservations (targetObs sourceObs : List String) : List String :=
  targetObs ++ sourceObs.filter (fun o => !(targetObs.contains o))

/-- `_tool_merge_entities` from src/mcp_transport.py lines 513-550,
stripped of the load/save plumbing: `none` models the two not-found
error returns. -/
def _tool_merge_entities (kg : KnowledgeGraph) (source target : String) :
    Option KnowledgeGraph :=
  match kgFind kg source, kgFind kg target with
  | none, _ => none
  | some _, none => none
  | some se, some _ =>
    let entities1 := kg.entities.map (fun p =>
      if p.1 == target
      then (p.1, { p.2 with observations := mergeObservations p.2.observations se.observations })
      else p)
    let rels1 := kg.relations.map (redirectRel source target)
    some { entities := entities1.filter (fun p => !(p.1 == source)),
           relations := dedupRels [] rels1,
           last_sync := kg.last_sync }

/-! ## Durable-store loading (src/howell_bridge.py load_knowledge,
src/task_queue.py _load_tasks)

The file system is abstracted to what a loader can encounter: the file
is absent, reading it raises `OSError`, or reading yields a document.
A document is classified by what parsing it does in the source:
undecodable JSON, decodable JSON of the wrong top-level shape, a
decodable well-shaped store, and (for the graph) a JSON object whose
entity/relation records make `from_dict` raise `KeyError`/`TypeError`. -/

inductive KGDoc where
  | notJson
  | jsonNonDict
  | jsonDictBad
  | jsonDict (kg : KnowledgeGraph)
deriving Repr, DecidableEq

inductive TasksDoc where
  | notJson
  | jsonNonList
  | jsonList (tasks : List Task)
deriving Repr, DecidableEq

inductive FileReadState (α : Type) where
  | absent
  | unreadable
  | readable (doc : α)
deriving Repr, DecidableEq

/-- The exceptions `load_knowledge` lets escape: `AttributeError` when
`from_dict` receives a decoded non-dict (only `JSONDecodeError`,
`KeyError` and `TypeError` are caught) and `OSError` when reading the
primary fails (also uncaught). -/
inductive PyError where
  | attributeError
  | osError
deriving Repr, DecidableEq

def emptyGraph : KnowledgeGraph := { entities := [], relations := [], last_sync := "" }

/-- `load_knowledge` from src/howell_bridge.py lines 272-290.  The
backup branch is wrapped in `except Exception: pass`, so every backup
failure falls through to the empty graph; no file is renamed aside. -/
def load_knowledge (primary backup : FileReadState KGDoc) :
    Except PyError KnowledgeGraph :=
  match primary with
  | .absent => .ok emptyGraph
  | .unreadable => .error .osError
  | .readable .jsonNonDict => .error .attributeError
  | .readable (.jsonDict kg) => .ok kg
  | .readable .notJson | .readable .jsonDictBad =>
    match backup with
    | .readable (.jsonDict kg) => .ok kg
    | _ => .ok emptyGraph

/-- `_load_tasks` from src/task_queue.py lines 50-80.  The Boolean
records whether the corrupt primary was renamed aside
(`tasks.json.corrupt.<ts>`).  A decodable primary of the wrong shape
returns `[]` inside the `try` block: no backup is consulted and nothing
is renamed.  The broad `except (json.JSONDecodeError, Exception)`
catches every read error, so this loader never raises. -/
def _load_tasks (primary backup : FileReadState TasksDoc) : List Task × Bool :=
  match primary with
  | .absent => ([], false)
  | .readable (.jsonList ts) => (ts, false)
  | .readable .jsonNonList => ([], false)
  | .unreadable | .readable .notJson =>
    match backup with
    | .readable (.jsonList ts) => (ts, false)
    | _ => ([], true)

/-! ## Structural lemmas about the store helpers -/

theorem find?_split {α : Type _} (p : α → Bool) :
    ∀ (l : List α) (a : α), l.find? p = some a →
      ∃ pre post, l = pre ++ a :: post ∧ (∀ x ∈ pre, p x = false) := by
  intro l
  induction l with
  | nil => intro a h; simp [List.find?] at h
  | cons x xs ih =>
    intro a h
    by_cases hp : p x = true
    · rw [List.find?_cons_of_pos _ hp] at h
      obtain rfl : x = a := by simpa using h
      exact ⟨[], xs, by simp, by simp⟩
    · rw [List.find?_cons_of_neg _ (by simpa using hp)] at h
      obtain ⟨pre, post, rfl, hpre⟩ := ih a h
      refine ⟨x :: pre, post, by simp, ?_⟩
      intro y hy
      rcases List.mem_cons.mp hy with rfl | hy
      · simpa using hp
      · exact hpre y hy

theorem overFirst_of_no_match (tid : String) (f : Task → Option Task) :
    ∀ ts : List Task, (∀ x ∈ ts, (x.id == tid) = false) →
      overFirst tid f ts = (none, ts) := by
  intro ts
  induction ts with
  | nil => intro _; simp [overFirst]
  | cons x xs ih =>
    intro h
    have hx := h x (by simp)
    simp only [overFirst, hx, Bool.false_eq_true, if_false]
    rw [ih (fun y hy => h y (by simp [hy]))]

theorem overFirst_append_none (tid : String) (f : Task → Option Task)
    (pre post : List Task) (t : Task)
    (hpre : ∀ x ∈ pre, (x.id == tid) = false) (ht : (t.id == tid) = true)
    (hf : f t = none) :
    overFirst tid f (pre ++ t :: post) = (none, pre ++ t :: post) := by
  induction pre with
  | nil => simp [overFirst, ht, hf]
  | cons x pre ih =>
    have hx := hpre x (by simp)
    have := ih (fun y hy => hpre y (by simp [hy]))
    simp only [List.cons_append, overFirst, hx, Bool.false_eq_true, if_false,
      List.append_eq, this]

theorem overFirst_append_some (tid : String) (f : Task → Option Task)
    (pre post : List Task) (t t' : Task)
    (hpre : ∀ x ∈ pre, (x.id == tid) = false) (ht : (t.id == tid) = true)
    (hf : f t = some t') :
    overFirst tid f (pre ++ t :: post) = (some t', pre ++ t' :: post) := by
  induction pre with
  | nil => simp [overFirst, ht, hf]
  | cons x pre ih =>
    have hx := hpre x (by simp)
    have := ih (fun y hy => hpre y (by simp [hy]))
    simp only [List.cons_append, overFirst, hx, Bool.false_eq_true, if_false,
      List.append_eq, this]

theorem replaceFirst_append (tid : String) (t' : Task)
    (pre post : List Task) (t : Task)
    (hpre : ∀ x ∈ pre, (x.id == tid) = false) (ht : (t.id == tid) = true) :
    replaceFirst (pre ++ t :: post) tid t' = pre ++ t' :: post := by
  induction pre with
  | nil => simp [replaceFirst, ht]
  | cons x pre ih =>
    have hx := hpre x (by simp)
    have := ih (fun y hy => hpre y (by simp [hy]))
    simp only [List.cons_append, replaceFirst, hx, Bool.false_eq_true, if_false,
      List.append_eq, this]

theorem mem_replaceFirst {u t' : Task} {tid : String} :
    ∀ {ts : List Task}, u ∈ replaceFirst ts tid t' → u ∈ ts ∨ u = t' := by
  intro ts
  induction ts with
  | nil => intro h; simp [replaceFirst] at h
  | cons x xs ih =>
    intro h
    by_cases hx : (x.id == tid) = true
    · simp only [replaceFirst, hx, if_true] at h
      rcases List.mem_cons.mp h with rfl | h
      · exact Or.inr rfl
      · exact Or.inl (List.mem_cons.mpr (Or.inr h))
    · simp only [replaceFirst, hx, if_false] at h
      rcases List.mem_cons.mp h with rfl | h
      · exact Or.inl (List.mem_cons.mpr (Or.inl rfl))
      · rcases ih h with h | h
        · exact Or.inl (List.mem_cons.mpr (Or.inr h))
        · exact Or.inr h

/-- The guard-failure early returns leave the list itself untouched. -/
theorem overFirst_fst_none (tid : String) (f : Task → Option Task) :
    ∀ ts : List Task, (overFirst tid f ts).1 = none → (overFirst tid f ts).2 = ts := by
  intro ts
  induction ts with
  | nil => intro _; simp [overFirst]
  | cons x xs ih =>
    by_cases hx : (x.id == tid) = true
    · cases hf : f x with
      | none => intro _; simp [overFirst, hx, hf]
      | some t' => simp [overFirst, hx, hf]
    · simp only [overFirst, hx, Bool.false_eq_true, if_false]
      intro h
      simp [ih h]

/-- Every element the loop leaves behind is an original element or an
image of `f`. -/
theorem overFirst_mem (tid : String) (f : Task → Option Task) :
    ∀ (ts : List Task) (u : Task), u ∈ (overFirst tid f ts).2 →
      u ∈ ts ∨ ∃ t, t ∈ ts ∧ f t = some u := by
  intro ts
  induction ts with
  | nil => intro u h; simp [overFirst] at h
  | cons x xs ih =>
    intro u h
    by_cases hx : (x.id == tid) = true
    · cases hf : f x with
      | none =>
        simp only [overFirst, hx, if_true, hf] at h
        exact Or.inl h
      | some t' =>
        simp only [overFirst, hx, if_true, hf] at h
        rcases List.mem_cons.mp h with rfl | h
        · exact Or.inr ⟨x, by simp, hf⟩
        · exact Or.inl (List.mem_cons.mpr (Or.inr h))
    · simp only [overFirst, hx, Bool.false_eq_true, if_false] at h
      rcases List.mem_cons.mp h with rfl | h
      · exact Or.inl (List.mem_cons.mpr (Or.inl rfl))
      · rcases ih u h with h | ⟨t, ht, hft⟩
        · exact Or.inl (List.mem_cons.mpr (Or.inr h))
        · exact Or.inr ⟨t, by simp [ht], hft⟩

/-! ## C1: the claimed-by / status invariant -/

/-- The invariant exactly as the claim states it: `claimed_by` is
non-null iff the status is claimed or in-progress. -/
def ClaimedIffActive (tasks : List Task) : Prop :=
  ∀ t ∈ tasks, t.claimed_by ≠ none ↔ (t.status = "claimed" ∨ t.status = "in-progress")

/-- The invariant the operations actually preserve: a completed task
keeps its claimant. -/
def TaskClaimInv (t : Task) : Prop :=
  t.claimed_by ≠ none ↔
    (t.status = "claimed" ∨ t.status = "in-progress" ∨ t.status = "completed")

def StoreClaimInv (tasks : List Task) : Prop :=
  ∀ t ∈ tasks, TaskClaimInv t

theorem storeClaimInv_apply_op (tasks : List Task) (op : Op)
    (h : StoreClaimInv tasks) : StoreClaimInv (apply_op tasks op) := by
  have hover : ∀ (tid : String) (f : Task → Option Task),
      (∀ t t', f t = some t' → TaskClaimInv t') →
      StoreClaimInv (overFirst tid f tasks).2 := by
    intro tid f hf u hu
    rcases overFirst_mem tid f tasks u hu with hu | ⟨t, _, hft⟩
    · exact h u hu
    · exact hf t u hft
  cases op with
  | create tid ttl d p sc pr deps cb now =>
    intro u hu
    simp only [apply_op, create_task] at hu
    rcases List.mem_append.mp hu with hu | hu
    · exact h u hu
    · simp only [List.mem_singleton] at hu
      subst hu
      constructor
      · intro hc; exact absurd rfl hc
      · intro hs; simp at hs
  | claim tid iid now =>
    intro u hu
    simp only [apply_op, claim_task] at hu
    rcases hfind : tasks.find? (fun t => t.id == tid) with _ | t
    · rw [hfind] at hu; exact h u hu
    · rw [hfind] at hu
      by_cases hst : (t.status != "pending") = true
      · simp only [hst, if_true] at hu; exact h u hu
      · simp only [hst, Bool.false_eq_true, if_false] at hu
        by_cases hconf : ((tasks.filter (fun x => isActiveStatus x.status && x.id != tid)).any
            (fun ip => hasConflict t.scope ip.scope)) = true
        · simp only [hconf, if_true] at hu; exact h u hu
        · simp only [hconf, Bool.false_eq_true, if_false] at hu
          rcases mem_replaceFirst hu with hu | rfl
          · exact h u hu
          · constructor
            · intro _; exact Or.inl rfl
            · intro _; exact Option.some_ne_none iid
  | start tid iid now =>
    refine hover tid _ ?_
    intro t t' hft
    by_cases hg : (t.status != "claimed" || t.claimed_by != some iid) = true
    · simp [hg] at hft
    · simp only [hg, Bool.false_eq_true, if_false, Option.some.injEq] at hft
      subst hft
      simp only [Bool.or_eq_true, not_or, Bool.not_eq_true] at hg
      have hcb : t.claimed_by = some iid := by
        have := hg.2
        simpa using this
      constructor
      · intro _; exact Or.inr (Or.inl rfl)
      · intro _; rw [hcb]; exact Option.some_ne_none iid
  | complete tid iid r arts now =>
    refine hover tid _ ?_
    intro t t' hft
    by_cases hg : (t.claimed_by != some iid) = true
    · simp [hg] at hft
    · simp only [hg, Bool.false_eq_true, if_false, Option.some.injEq] at hft
      subst hft
      have hcb : t.claimed_by = some iid := by
        simpa using hg
      constructor
      · intro _; exact Or.inr (Or.inr rfl)
      · intro _; rw [hcb]; exact Option.some_ne_none iid
  | fail tid iid reason now =>
    refine hover tid _ ?_
    intro t t' hft
    by_cases hg : (t.claimed_by != some iid) = true
    · simp [hg] at hft
    · simp only [hg, Bool.false_eq_true, if_false, Option.some.injEq] at hft
      subst hft
      constructor
      · intro hc; exact absurd rfl hc
      · intro hs; simp at hs
  | release tid iid now =>
    refine hover tid _ ?_
    intro t t' hft
    by_cases hg : (t.claimed_by != some iid) = true
    · simp [hg] at hft
    · simp only [hg, Bool.false_eq_true, if_false] at hft
      by_cases ha : isActiveStatus t.status = true
      · simp only [ha, Bool.not_true, Bool.false_eq_true, if_false,
          Option.some.injEq] at hft
        subst hft
        constructor
        · intro hc; exact absurd rfl hc
        · intro hs; simp at hs
      · simp [ha] at hft
  | releaseAll iid now =>
    intro u hu
    simp only [apply_op, release_all_for_instance, List.mem_map] at hu
    obtain ⟨t, ht, hu⟩ := hu
    by_cases hm : autoReleaseMatch iid t = true
    · rw [if_pos hm] at hu
      subst hu
      constructor
      · intro hc; exact absurd rfl hc
      · intro hs; simp [autoRelease] at hs
    · rw [if_neg hm] at hu
      subst hu
      exact h t ht

/-- The claim's op list (C1).  Amended invariant: starting from the empty
store, after any sequence of task-queue operations `claimed_by` is
non-null iff the status is claimed, in-progress **or completed** —
`complete_task` records the result without clearing the claim. -/
theorem C1_claimed_by_invariant (ops : List Op) : StoreClaimInv (run_ops [] ops) := by
  have main : ∀ (ops : List Op) (tasks : List Task),
      StoreClaimInv tasks → StoreClaimInv (run_ops tasks ops) := by
    intro ops
    induction ops with
    | nil => exact fun tasks h => h
    | cons op rest ih =>
      intro tasks h
      exact ih (apply_op tasks op) (storeClaimInv_apply_op tasks op h)
  exact main ops [] (by intro t ht; simp at ht)

/-- The concrete run that breaks the claim as stated: create a task,
claim it, complete it. -/
def c1State : List Task :=
  run_ops []
    [ .create "A" "t" "" "" { files := [], directories := [], tags := [] }
        "medium" [] "ryan" "T0",
      .claim "A" "X" "T1",
      .complete "A" "X" "done" [] "T2" ]

/-- C1 as stated is false: after `complete_task` the completed task still
has `claimed_by = some "X"` while its status is `"completed"`. -/
theorem C1_counterexample : ¬ ClaimedIffActive c1State := by
  unfold ClaimedIffActive c1State
  decide

/-! ## C2: what claim_task re-checks -/

/-- Invariant 3 of the spec, as the claim restates it: every task that is
neither pending nor failed has only completed dependencies. -/
def DepInv (tasks : List Task) : Prop :=
  ∀ t ∈ tasks, t.status ≠ "pending" → t.status ≠ "failed" →
    ∀ d ∈ t.dependencies, ∃ u ∈ tasks, u.id = d ∧ u.status = "completed"

/-- A store holding one pending task whose single dependency names no
task at all. -/
def c2Store : List Task :=
  (create_task [] "A" "t" "" ""
    { files := [], directories := [], tags := [] } "medium" ["zzz"] "ryan" "T0").2

/-- C2 as stated is false: `claim_task` succeeds on a task whose
dependency `"zzz"` is not completed (it does not even exist), and the
resulting store violates the dependency invariant. -/
theorem C2_counterexample :
    (claim_task c2Store "A" "X" "T1").1 ≠ none ∧
      ¬ DepInv (claim_task c2Store "A" "X" "T1").2 := by
  unfold DepInv c2Store
  decide

/-- The Boolean conflict re-check of `claim_task`, as a quantifier. -/
theorem claim_conflict_check (tasks : List Task) (t : Task) (tid : String) :
    ((tasks.filter (fun x => isActiveStatus x.status && x.id != tid)).any
        (fun ip => hasConflict t.scope ip.scope)) = false ↔
    (∀ u ∈ tasks, isActiveStatus u.status = true → u.id ≠ tid →
      hasConflict t.scope u.scope = false) := by
  rw [← Bool.not_eq_true, List.any_eq_true]
  constructor
  · intro h u hu hact hne
    by_contra hc
    exact h ⟨u, List.mem_filter.mpr ⟨hu, by simp [hact, bne_iff_ne, hne]⟩,
      by simpa using hc⟩
  · rintro h ⟨u, hu, hcu⟩
    obtain ⟨humem, hprop⟩ := List.mem_filter.mp hu
    rw [Bool.and_eq_true, bne_iff_ne] at hprop
    rw [h u humem hprop.1 hprop.2] at hcu
    exact absurd hcu (by simp)

/-- Amended C2: inside the lock `claim_task` re-checks only that the
task (the first with the given id) is pending and that its scope does
not conflict with any other claimed / in-progress task — the
dependency list is **not** re-checked.  On success the task becomes
claimed by the caller; on failure the store is unchanged. -/
theorem C2_claim_task_scope_only (tasks : List Task) (tid iid now : String) :
    ((claim_task tasks tid iid now).1 ≠ none ↔
      ∃ t, tasks.find? (fun u => u.id == tid) = some t ∧ t.status = "pending" ∧
        ∀ u ∈ tasks, isActiveStatus u.status = true → u.id ≠ tid →
          hasConflict t.scope u.scope = false) ∧
    (∀ t, tasks.find? (fun u => u.id == tid) = some t → t.status = "pending" →
       (∀ u ∈ tasks, isActiveStatus u.status = true → u.id ≠ tid →
          hasConflict t.scope u.scope = false) →
       claim_task tasks tid iid now =
         (some { t with status := "claimed", claimed_by := some iid,
                        claimed_at := some now },
          replaceFirst tasks tid
            { t with status := "claimed", claimed_by := some iid,
                     claimed_at := some now })) ∧
    ((claim_task tasks tid iid now).1 = none →
      (claim_task tasks tid iid now).2 = tasks) := by
  rcases hfind : tasks.find? (fun u => u.id == tid) with _ | t
  · refine ⟨?_, ?_, ?_⟩
    · simp only [claim_task, hfind]
      constructor
      · intro h; exact absurd rfl h
      · rintro ⟨t, ht, -⟩; simp [hfind] at ht
    · intro t ht; rw [hfind] at ht; simp at ht
    · simp [claim_task, hfind]
  · by_cases hst : t.status = "pending"
    · by_cases hconf : ((tasks.filter (fun x => isActiveStatus x.status && x.id != tid)).any
          (fun ip => hasConflict t.scope ip.scope)) = true
      · have hfail : claim_task tasks tid iid now = (none, tasks) := by
          simp [claim_task, hfind, hst, hconf]
        have hnot : ¬ (∀ u ∈ tasks, isActiveStatus u.status = true → u.id ≠ tid →
            hasConflict t.scope u.scope = false) := by
          intro h
          rw [← claim_conflict_check tasks t tid] at h
          rw [h] at hconf
          exact absurd hconf (by simp)
        refine ⟨?_, ?_, ?_⟩
        · rw [hfail]
          constructor
          · intro h; exact absurd rfl h
          · rintro ⟨t', ht', -, hnc⟩
            rw [hfind] at ht'
            obtain rfl : t = t' := by simpa using ht'
            exact absurd hnc hnot
        · intro t' ht' _ hnc
          rw [hfind] at ht'
          obtain rfl : t = t' := by simpa using ht'
          exact absurd hnc hnot
        · intro _; rw [hfail]
      · rw [Bool.not_eq_true] at hconf
        have hok : claim_task tasks tid iid now =
            (some { t with status := "claimed", claimed_by := some iid,
                           claimed_at := some now },
             replaceFirst tasks tid
               { t with status := "claimed", claimed_by := some iid,
                        claimed_at := some now }) := by
          simp [claim_task, hfind, hst, hconf]
        refine ⟨?_, ?_, ?_⟩
        · rw [hok]
          constructor
          · intro _
            exact ⟨t, hfind, hst, (claim_conflict_check tasks t tid).mp hconf⟩
          · intro _; simp
        · intro t' ht' _ _
          rw [hfind] at ht'
          obtain rfl : t = t' := by simpa using ht'
          exact hok
        · rw [hok]; intro h; simp at h
    · have hfail : claim_task tasks tid iid now = (none, tasks) := by
        simp [claim_task, hfind]
        intro h
        exact absurd h hst
      refine ⟨?_, ?_, ?_⟩
      · rw [hfail]
        constructor
        · intro h; exact absurd rfl h
        · rintro ⟨t', ht', hp', -⟩
          rw [hfind] at ht'
          obtain rfl : t = t' := by simpa using ht'
          exact absurd hp' hst
      · intro t' ht' hp' _
        rw [hfind] at ht'
        obtain rfl : t = t' := by simpa using ht'
        exact absurd hp' hst
      · intro _; rw [hfail]

/-! ## C3: the availability query -/

/-- Availability as the claim words it: pending, every dependency id
names a completed task, and no scope overlap with any claimed /
in-progress task. -/
def isAvailable (tasks : List Task) (t : Task) : Prop :=
  t.status = "pending" ∧
  (∀ d ∈ t.dependencies, ∃ u ∈ tasks, u.status = "completed" ∧ u.id = d) ∧
  (∀ u ∈ tasks, (u.status = "claimed" ∨ u.status = "in-progress") →
    _scopes_overlap t.scope u.scope = [])

theorem hasConflict_eq_false_iff (a b : Scope) :
    hasConflict a b = false ↔ _scopes_overlap a b = [] := by
  simp [hasConflict]

theorem availableFilter_iff (tasks : List Task) (t : Task) :
    availableFilter tasks t = true ↔ isAvailable tasks t := by
  simp only [availableFilter, Bool.and_eq_true, beq_iff_eq, depsMet,
    List.all_eq_true, Bool.not_eq_true]
  constructor
  · rintro ⟨⟨hp, hdeps⟩, hconf⟩
    refine ⟨hp, ?_, ?_⟩
    · intro d hd
      have := hdeps d hd
      rw [List.contains_iff_exists_mem_beq] at this
      obtain ⟨c, hc, hbeq⟩ := this
      obtain ⟨u, hu, rfl⟩ := List.mem_map.mp hc
      obtain ⟨humem, hcomp⟩ := List.mem_filter.mp hu
      exact ⟨u, humem, by simpa using hcomp, (by simpa using hbeq : d = u.id).symm⟩
    · intro u hu hact
      rw [← hasConflict_eq_false_iff]
      by_contra hc
      rw [Bool.not_eq_false] at hc
      have : (inProgressScopes tasks).any (fun s => hasConflict t.scope s) = true := by
        rw [List.any_eq_true]
        refine ⟨u.scope, List.mem_map.mpr ⟨u, List.mem_filter.mpr ⟨hu, ?_⟩, rfl⟩, hc⟩
        simp only [isActiveStatus, Bool.or_eq_true, beq_iff_eq]
        exact hact
      rw [this] at hconf
      exact absurd hconf (by simp)
  · rintro ⟨hp, hdeps, hconf⟩
    refine ⟨⟨hp, ?_⟩, ?_⟩
    · intro d hd
      obtain ⟨u, hu, hcomp, rfl⟩ := hdeps d hd
      rw [List.contains_iff_exists_mem_beq]
      exact ⟨u.id, List.mem_map.mpr ⟨u, List.mem_filter.mpr ⟨hu, by simp [hcomp]⟩, rfl⟩,
        by simp⟩
    · rw [Bool.not_eq_true', ← Bool.not_eq_true, List.any_eq_true]
      rintro ⟨s, hs, hcs⟩
      obtain ⟨u, hu, rfl⟩ := List.mem_map.mp hs
      obtain ⟨humem, hact⟩ := List.mem_filter.mp hu
      have : _scopes_overlap t.scope u.scope = [] := by
        refine hconf u humem ?_
        simpa [isActiveStatus] using hact
      rw [hasConflict, this] at hcs
      exact absurd hcs (by simp)

theorem priorityLe_trans (a b c : Task) :
    priorityLe a b → priorityLe b c → priorityLe a c := by
  simp only [priorityLe, decide_eq_true_eq]
  omega

theorem priorityLe_total (a b : Task) : priorityLe a b || priorityLe b a := by
  simp only [priorityLe, Bool.or_eq_true, decide_eq_true_eq]
  omega

/-- C3: `get_available_tasks` returns exactly the available tasks,
sorted by the priority buckets critical < high < medium < low, and
inside one bucket the store (creation) order is preserved (Python's
`list.sort` is stable). -/
theorem C3_get_available_tasks (tasks : List Task) :
    (∀ t, t ∈ get_available_tasks tasks ↔ t ∈ tasks ∧ isAvailable tasks t) ∧
    (get_available_tasks tasks).Pairwise
      (fun a b => priority_order a.priority ≤ priority_order b.priority) ∧
    (priority_order "critical" < priority_order "high" ∧
      priority_order "high" < priority_order "medium" ∧
      priority_order "medium" < priority_order "low") ∧
    (∀ k : Nat, (get_available_tasks tasks).filter
        (fun t => priority_order t.priority == k) =
      tasks.filter (fun t => availableFilter tasks t &&
        priority_order t.priority == k)) := by
  refine ⟨?_, ?_, by decide, ?_⟩
  · intro t
    rw [get_available_tasks, List.mem_mergeSort, List.mem_filter, availableFilter_iff]
  · have h := List.sorted_mergeSort priorityLe_trans priorityLe_total
      (tasks.filter (availableFilter tasks))
    refine (List.Pairwise.imp ?_ h)
    intro a b hab
    simpa [priorityLe] using hab
  · intro k
    rw [get_available_tasks]
    have hrhs : tasks.filter (fun t => availableFilter tasks t &&
        priority_order t.priority == k) =
        (tasks.filter (availableFilter tasks)).filter
          (fun t => priority_order t.priority == k) := by
      rw [List.filter_filter]
      exact List.filter_congr (fun x _ => Bool.and_comm _ _)
    rw [hrhs]
    set l := tasks.filter (availableFilter tasks) with hl
    set c := l.filter (fun t => priority_order t.priority == k) with hc
    have hmemc : ∀ x ∈ c, priority_order x.priority = k := by
      intro x hx
      have := (List.mem_filter.mp hx).2
      simpa using this
    have hcpair : c.Pairwise (fun a b => priorityLe a b) := by
      refine List.pairwise_of_forall_mem_list ?_
      intro a ha b hb
      simp only [priorityLe, decide_eq_true_eq, hmemc a ha, hmemc b hb, le_refl]
    have hcsub : List.Sublist c (l.mergeSort priorityLe) :=
      List.sublist_mergeSort priorityLe_trans priorityLe_total hcpair
        (List.filter_sublist l)
    have hcfilter : c.filter (fun t => priority_order t.priority == k) = c :=
      List.filter_eq_self.mpr (fun x hx => by simp [hmemc x hx])
    have hsub2 : List.Sublist c ((l.mergeSort priorityLe).filter
        (fun t => priority_order t.priority == k)) := by
      rw [← hcfilter]
      exact hcsub.filter _
    have hlen : ((l.mergeSort priorityLe).filter
        (fun t => priority_order t.priority == k)).length = c.length := by
      rw [hc]
      exact ((List.mergeSort_perm l priorityLe).filter _).length_eq
    exact (hsub2.eq_of_length hlen.symm).symm

/-! ## C4: the scope-overlap predicate -/

/-- The claim's own normalisation: forward slashes, then a trailing
separator **appended** (no stripping).  Defined only to compare the
claim's wording against the source predicate. -/
def normDirClaim (d : String) : List Char :=
  slashify d ++ ['/']

/-- The overlap predicate as the claim words it: shared file, shared
tag, or a claim-normalised directory of one a prefix of a
claim-normalised directory of the other. -/
def claimOverlapSpec (a b : Scope) : Bool :=
  a.files.any (fun f => b.files.contains f) ||
  a.directories.any (fun da => b.directories.any (fun db =>
    List.isPrefixOf (normDirClaim db) (normDirClaim da) ||
    List.isPrefixOf (normDirClaim da) (normDirClaim db))) ||
  a.tags.any (fun t => b.tags.contains t)

/-- The claim amended: the normalisation also strips trailing
separators before appending one, as the source does. -/
def amendedOverlapSpec (a b : Scope) : Bool :=
  a.files.any (fun f => b.files.contains f) ||
  a.directories.any (fun da => b.directories.any (fun db =>
    List.isPrefixOf (normDir db) (normDir da) ||
    List.isPrefixOf (normDir da) (normDir db))) ||
  a.tags.any (fun t => b.tags.contains t)

def c4A : Scope := { files := [], directories := ["a//"], tags := [] }

def c4B : Scope := { files := [], directories := ["a/b"], tags := [] }

/-- C4 as stated is false: with directories `a//` and `a/b` the source
predicate reports an overlap (`a//` strips to `a/`, a prefix of
`a/b/`), while the claim's append-only normalisation (`a///` against
`a/b/`) reports none. -/
theorem C4_counterexample :
    hasConflict c4A c4B = true ∧ claimOverlapSpec c4A c4B = false := by
  decide

theorem isEmpty_append_eq (l1 l2 : List α) :
    (l1 ++ l2).isEmpty = (l1.isEmpty && l2.isEmpty) := by
  cases l1 <;> simp [List.isEmpty]

theorem isEmpty_map_eq (f : α → β) (l : List α) :
    (l.map f).isEmpty = l.isEmpty := by
  cases l <;> simp [List.isEmpty]

theorem isEmpty_filter_eq (p : α → Bool) (l : List α) :
    (l.filter p).isEmpty = !(l.any p) := by
  induction l with
  | nil => simp
  | cons x xs ih =>
    by_cases h : p x = true
    · simp [List.filter_cons, h]
    · rw [Bool.not_eq_true] at h
      simp [List.filter_cons, h, ih]

theorem not_isEmpty_flatMap (g : α → List β) (l : List α) :
    (!(l.flatMap g).isEmpty) = l.any (fun x => !(g x).isEmpty) := by
  induction l with
  | nil => simp
  | cons x xs ih =>
    simp only [List.flatMap_cons, isEmpty_append_eq, List.any_cons, Bool.not_and, ih]

/-- The source predicate coincides with the amended wording. -/
theorem hasConflict_eq_amended (a b : Scope) :
    hasConflict a b = amendedOverlapSpec a b := by
  rw [hasConflict, _scopes_overlap, amendedOverlapSpec]
  simp only [isEmpty_append_eq, Bool.not_and, isEmpty_map_eq, isEmpty_filter_eq,
    Bool.not_not, not_isEmpty_flatMap]

/-- Overlap as a proposition, convenient for the symmetry argument. -/
theorem hasConflict_iff (a b : Scope) :
    hasConflict a b = true ↔
      ((∃ f ∈ a.files, f ∈ b.files) ∨
       (∃ da ∈ a.directories, ∃ db ∈ b.directories,
         List.isPrefixOf (normDir db) (normDir da) = true ∨
         List.isPrefixOf (normDir da) (normDir db) = true) ∨
       (∃ t ∈ a.tags, t ∈ b.tags)) := by
  rw [hasConflict_eq_amended, amendedOverlapSpec]
  simp only [Bool.or_eq_true, List.any_eq_true, List.contains_iff_exists_mem_beq,
    beq_iff_eq]
  constructor
  · rintro ((⟨f, hf, g, hg, rfl⟩ | h) | ⟨t, ht, u, hu, rfl⟩)
    · exact Or.inl ⟨f, hf, hg⟩
    · exact Or.inr (Or.inl (by simpa using h))
    · exact Or.inr (Or.inr ⟨t, ht, hu⟩)
  · rintro (⟨f, hf, hg⟩ | h | ⟨t, ht, hu⟩)
    · exact Or.inl (Or.inl ⟨f, hf, f, hg, rfl⟩)
    · exact Or.inl (Or.inr (by simpa using h))
    · exact Or.inr ⟨t, ht, t, hu, rfl⟩

/-- C4 amended: the source predicate reports overlap iff the scopes
share a file, share a tag, or one's directory, normalised to forward
slashes with trailing separators stripped and one separator appended,
is a prefix of the other's; the predicate is symmetric; `src` and
`src/` overlap while `src` and `srcs` do not. -/
theorem C4_scope_overlap (a b : Scope) :
    (hasConflict a b = amendedOverlapSpec a b) ∧
    (hasConflict a b = hasConflict b a) ∧
    (hasConflict { files := [], directories := ["src"], tags := [] }
      { files := [], directories := ["src/"], tags := [] } = true) ∧
    (hasConflict { files := [], directories := ["src"], tags := [] }
      { files := [], directories := ["srcs"], tags := [] } = false) := by
  refine ⟨hasConflict_eq_amended a b, ?_, by decide, by decide⟩
  rw [Bool.eq_iff_iff, hasConflict_iff, hasConflict_iff]
  constructor
  · rintro (⟨f, hf, hg⟩ | ⟨da, hda, db, hdb, h⟩ | ⟨t, ht, hu⟩)
    · exact Or.inl ⟨f, hg, hf⟩
    · exact Or.inr (Or.inl ⟨db, hdb, da, hda, h.symm⟩)
    · exact Or.inr (Or.inr ⟨t, hu, ht⟩)
  · rintro (⟨f, hf, hg⟩ | ⟨da, hda, db, hdb, h⟩ | ⟨t, ht, hu⟩)
    · exact Or.inl ⟨f, hg, hf⟩
    · exact Or.inr (Or.inl ⟨db, hdb, da, hda, h.symm⟩)
    · exact Or.inr (Or.inr ⟨t, hu, ht⟩)

/-! ## C5: handoff claim is a compare-and-set -/

theorem handoffClaimable_iff (hid : Nat) (h : Handoff) :
    handoffClaimable hid h = true ↔ h.id = hid ∧ h.claimed_by = none := by
  simp [handoffClaimable]

/-- C5: for a table whose ids are unique (the primary key), a claim
succeeds iff some row with the id is unclaimed; success writes
`claimed_by` and `claimed_at` together; failure leaves the table
unchanged; and of two back-to-back claims on the same handoff at most
one succeeds. -/
theorem C5_claim_handoff_cas (db : List Handoff) (hid : Nat) (a1 t1 a2 t2 : String)
    (hnodup : (db.map (fun h => h.id)).Nodup) :
    ((claim_handoff db hid a1 t1).1 ≠ none ↔
      ∃ h ∈ db, h.id = hid ∧ h.claimed_by = none) ∧
    (∀ h', (claim_handoff db hid a1 t1).1 = some h' →
      h'.claimed_by = some a1 ∧ h'.claimed_at = some t1) ∧
    ((claim_handoff db hid a1 t1).1 = none → (claim_handoff db hid a1 t1).2 = db) ∧
    ¬ ((claim_handoff db hid a1 t1).1 ≠ none ∧
       (claim_handoff (claim_handoff db hid a1 t1).2 hid a2 t2).1 ≠ none) := by
  by_cases hz : (db.countP (fun h => handoffClaimable hid h) == 0) = true
  · have hnone : claim_handoff db hid a1 t1 = (none, db) := by
      rw [claim_handoff]
      simp only [hz, if_true]
    have hempty : ∀ h ∈ db, ¬ (h.id = hid ∧ h.claimed_by = none) := by
      intro h hmem hc
      have := List.countP_eq_zero.mp (by simpa using hz) h hmem
      exact this ((handoffClaimable_iff hid h).mpr hc)
    refine ⟨?_, ?_, ?_, ?_⟩
    · rw [hnone]
      constructor
      · intro hne; exact absurd rfl hne
      · rintro ⟨h, hmem, hc⟩; exact absurd hc (hempty h hmem)
    · intro h' hh'; rw [hnone] at hh'; simp at hh'
    · intro _; rw [hnone]
    · rintro ⟨h1, -⟩; rw [hnone] at h1; exact absurd rfl h1
  · have hupd : claim_handoff db hid a1 t1 =
        ((db.map (fun h => if handoffClaimable hid h
            then { h with claimed_by := some a1, claimed_at := some t1 } else h)).find?
          (fun h => h.id == hid),
         db.map (fun h => if handoffClaimable hid h
            then { h with claimed_by := some a1, claimed_at := some t1 } else h)) := by
      rw [claim_handoff]
      simp only [hz, Bool.false_eq_true, if_false]
    obtain ⟨h0, h0mem, h0m⟩ : ∃ h ∈ db, handoffClaimable hid h = true := by
      by_contra hc
      push_neg at hc
      have : db.countP (fun h => handoffClaimable hid h) = 0 :=
        List.countP_eq_zero.mpr (fun a ha => by simp [hc a ha])
      rw [this] at hz
      exact hz (by simp)
    obtain ⟨h0id, h0cb⟩ := (handoffClaimable_iff hid h0).mp h0m
    have hgid : ∀ h : Handoff,
        ((if handoffClaimable hid h
          then { h with claimed_by := some a1, claimed_at := some t1 } else h).id == hid) =
        (h.id == hid) := by
      intro h
      by_cases hm : handoffClaimable hid h = true
      · simp [hm]
      · rw [Bool.not_eq_true] at hm; simp [hm]
    have hfind : (db.map (fun h => if handoffClaimable hid h
        then { h with claimed_by := some a1, claimed_at := some t1 } else h)).find?
          (fun h => h.id == hid) =
        (db.find? (fun h => h.id == hid)).map (fun h => if handoffClaimable hid h
          then { h with claimed_by := some a1, claimed_at := some t1 } else h) := by
      rw [List.find?_map]
      have hfun : ((fun h : Handoff => h.id == hid) ∘ (fun h => if handoffClaimable hid h
          then { h with claimed_by := some a1, claimed_at := some t1 } else h)) =
          (fun h : Handoff => h.id == hid) := by
        funext h
        simp only [Function.comp_apply]
        exact hgid h
      rw [hfun]
    have hfound : ∃ h1, db.find? (fun h => h.id == hid) = some h1 := by
      have : (db.find? (fun h => h.id == hid)).isSome := by
        rw [List.find?_isSome]
        exact ⟨h0, h0mem, by simp [h0id]⟩
      exact Option.isSome_iff_exists.mp this
    obtain ⟨h1, hfind1⟩ := hfound
    have h1mem : h1 ∈ db := List.mem_of_find?_eq_some hfind1
    have h1id : h1.id = hid := by simpa using List.find?_some hfind1
    have h1eq : h1 = h0 :=
      List.inj_on_of_nodup_map hnodup h1mem h0mem (by rw [h1id, h0id])
    have hnomatch : ∀ h ∈ (db.map (fun h => if handoffClaimable hid h
        then { h with claimed_by := some a1, claimed_at := some t1 } else h)),
        handoffClaimable hid h = false := by
      intro h hmem
      obtain ⟨h', h'mem, rfl⟩ := List.mem_map.mp hmem
      by_cases hm : handoffClaimable hid h' = true
      · rw [if_pos hm]
        simp [handoffClaimable]
      · rw [Bool.not_eq_true] at hm
        rw [if_neg (by simp [hm])]
        exact hm
    refine ⟨?_, ?_, ?_, ?_⟩
    · rw [hupd]
      constructor
      · intro _; exact ⟨h0, h0mem, h0id, h0cb⟩
      · intro _
        rw [hfind, hfind1]
        simp
    · intro h' hh'
      rw [hupd] at hh'
      rw [hfind, hfind1] at hh'
      rw [h1eq] at hh'
      simp only [Option.map_some', Option.some.injEq] at hh'
      rw [if_pos h0m] at hh'
      subst hh'
      constructor <;> rfl
    · intro habs
      rw [hupd] at habs
      rw [hfind, hfind1] at habs
      simp at habs
    · rintro ⟨-, h2⟩
      rw [hupd] at h2
      rw [claim_handoff] at h2
      have hcz : ((db.map (fun h => if handoffClaimable hid h
          then { h with claimed_by := some a1, claimed_at := some t1 } else h)).countP
            (fun h => handoffClaimable hid h)) = 0 :=
        List.countP_eq_zero.mpr (fun a ha => by simp [hnomatch a ha])
      rw [hcz] at h2
      simp at h2

def c5Db : List Handoff :=
  [{ id := 1, from_agent := "CH-260207-1", to_scope := "w", content := "c",
     priority := "normal", claimed_by := none, created_at := "T0",
     claimed_at := none }]

/-- Witness: on a one-row table, back-to-back claims by two agents
cannot both succeed. -/
theorem C5_claim_handoff_cas_witness :
    ¬ ((claim_handoff c5Db 1 "G1" "T1").1 ≠ none ∧
       (claim_handoff (claim_handoff c5Db 1 "G1" "T1").2 1 "G2" "T2").1 ≠ none) :=
  (C5_claim_handoff_cas c5Db 1 "G1" "T1" "G2" "T2" (by decide)).2.2.2

/-! ## C6: auto-release on instance disconnect -/

/-- C6: `release_all_for_instance` keeps the store the same length (no
task appears or disappears), returns exactly the number of tasks
claimed by the instance in claimed / in-progress, resets each such task
to pending with the claim fields cleared and exactly one auto-release
note appended after the existing notes, and leaves every other task
unchanged. -/
theorem C6_release_all_for_instance (tasks : List Task) (iid now : String) :
    ((release_all_for_instance tasks iid now).2.length = tasks.length) ∧
    ((release_all_for_instance tasks iid now).1 =
      tasks.countP (fun t => t.claimed_by == some iid && isActiveStatus t.status)) ∧
    (∀ (i : Nat) (t : Task), tasks[i]? = some t →
      (release_all_for_instance tasks iid now).2[i]? =
        some (if t.claimed_by == some iid && isActiveStatus t.status
          then { t with
            status := "pending", claimed_by := none, claimed_at := none,
            started_at := none,
            notes := t.notes ++
              [⟨now, "Auto-released: instance " ++ iid ++ " disconnected"⟩] }
          else t)) := by
  refine ⟨?_, rfl, ?_⟩
  · simp [release_all_for_instance]
  · intro i t ht
    simp only [release_all_for_instance, List.getElem?_map, ht, Option.map_some']
    rfl

/-! ## C7: lazy expiry in the instance registry -/

theorem mem_purge {now_ts : Int} {m : List Instance} {r : Instance}
    (h : r ∈ _purge_expired now_ts m) :
    r ∈ m ∧ now_ts - r.last_heartbeat_ts ≤ EXPIRY_SECONDS := by
  obtain ⟨hm, hp⟩ := List.mem_filter.mp h
  refine ⟨hm, ?_⟩
  simp only [Bool.not_eq_true', decide_eq_false_iff_not, gt_iff_lt, not_lt] at hp
  exact hp

def staleInstance : Instance :=
  { id := "i1", workspace := "w", platform := "p", status := "s", activity := "",
    active_files := [], registered_at := "R", last_heartbeat := "H",
    last_heartbeat_ts := 0, heartbeat_count := 0 }

/-- C7 as stated is false: `update_status` never purges (and never reads
the clock), so at wall time 1000 — long past the 600-second threshold —
it still observes and returns the stale record. -/
theorem C7_counterexample :
    (update_status [staleInstance] "i1" (some "busy") none none).1 =
      some { staleInstance with status := "busy" } ∧
    (1000 : Int) - staleInstance.last_heartbeat_ts > EXPIRY_SECONDS := by
  constructor
  · rfl
  · decide

/-- C7 amended: `register`, `heartbeat`, `check_conflicts`,
`list_instances`, `get_instance` and `instance_count` purge expired
records first and therefore never observe or return an instance whose
last heartbeat is older than the threshold; `update_status` and
`deregister` do not purge. -/
theorem C7_purging_operations (m : List Instance) (now_ts : Int)
    (instance_id workspace platform status iso : String)
    (statusOpt : Option String) (files : List String) :
    (∀ r ∈ (register m instance_id workspace platform status now_ts iso).2,
      now_ts - r.last_heartbeat_ts ≤ EXPIRY_SECONDS) ∧
    (∀ r ∈ (heartbeat m instance_id statusOpt now_ts iso).2,
      now_ts - r.last_heartbeat_ts ≤ EXPIRY_SECONDS) ∧
    (∀ c ∈ (check_conflicts m instance_id files now_ts).1,
      ∃ r ∈ m, r.id = c.instance_id ∧ now_ts - r.last_heartbeat_ts ≤ EXPIRY_SECONDS) ∧
    (∀ r ∈ (list_instances m now_ts).1,
      now_ts - r.last_heartbeat_ts ≤ EXPIRY_SECONDS) ∧
    (∀ r, (get_instance m instance_id now_ts).1 = some r →
      now_ts - r.last_heartbeat_ts ≤ EXPIRY_SECONDS) ∧
    ((instance_count m now_ts).1 =
      (m.filter (fun r => !(decide (now_ts - r.last_heartbeat_ts > EXPIRY_SECONDS)))).length) := by
  refine ⟨?_, ?_, ?_, ?_, ?_, rfl⟩
  · intro r hr
    simp only [register] at hr
    rcases List.mem_append.mp hr with hr | hr
    · exact (mem_purge hr).2
    · simp only [List.mem_singleton] at hr
      subst hr
      simp [EXPIRY_SECONDS]
  · intro r hr
    simp only [heartbeat] at hr
    rcases hfind : (_purge_expired now_ts m).find? (fun x => x.id == instance_id) with
      _ | r0
    · rw [hfind] at hr
      exact (mem_purge hr).2
    · rw [hfind] at hr
      simp only at hr
      obtain ⟨x, hx, hxr⟩ := List.mem_map.mp hr
      by_cases hxid : (x.id == instance_id) = true
      · rw [if_pos hxid] at hxr
        subst hxr
        simp [bumpHeartbeat, EXPIRY_SECONDS]
      · rw [Bool.not_eq_true] at hxid
        rw [if_neg (by simp [hxid])] at hxr
        subst hxr
        exact (mem_purge hx).2
  · intro c hc
    simp only [check_conflicts] at hc
    obtain ⟨r, hr, hcr⟩ := List.mem_flatMap.mp hc
    obtain ⟨hrm, hrle⟩ := mem_purge hr
    by_cases hrid : (r.id == instance_id) = true
    · rw [if_pos hrid] at hcr
      simp at hcr
    · rw [Bool.not_eq_true] at hrid
      rw [if_neg (by simp [hrid])] at hcr
      obtain ⟨f, -, hfc⟩ := List.mem_map.mp hcr
      refine ⟨r, hrm, ?_, hrle⟩
      rw [← hfc]
  · intro r hr
    exact (mem_purge hr).2
  · intro r hr
    simp only [get_instance] at hr
    exact (mem_purge (List.mem_of_find?_eq_some hr)).2

/-! ## C8: entity merge -/

theorem contains_key_iff (s : List (String × String × String))
    (k : String × String × String) : s.contains k = true ↔ k ∈ s := by
  rw [List.contains_iff_exists_mem_beq]
  constructor
  · rintro ⟨b, hb, hbeq⟩
    obtain rfl : k = b := by simpa using hbeq
    exact hb
  · intro h; exact ⟨k, h, by simp⟩

theorem dedupRels_sound : ∀ (seen : List (String × String × String))
    (l : List Relation) (r : Relation), r ∈ dedupRels seen l →
    r ∈ l ∧ relKey r ∉ seen ∧ r.from_entity ≠ r.to_entity := by
  intro seen l
  induction l generalizing seen with
  | nil => intro r h; simp [dedupRels] at h
  | cons x xs ih =>
    intro r h
    by_cases hc : (!(seen.contains (relKey x)) && x.from_entity != x.to_entity) = true
    · rw [dedupRels, if_pos hc] at h
      rw [Bool.and_eq_true, Bool.not_eq_true', bne_iff_ne] at hc
      rcases List.mem_cons.mp h with rfl | h
      · refine ⟨by simp, ?_, hc.2⟩
        intro hmem
        rw [(contains_key_iff seen (relKey r)).mpr hmem] at hc
        exact absurd hc.1 (by simp)
      · obtain ⟨hmem, hseen, hloop⟩ := ih (relKey x :: seen) r h
        exact ⟨by simp [hmem], fun hk => hseen (by simp [hk]), hloop⟩
    · rw [dedupRels, if_neg hc] at h
      obtain ⟨hmem, hseen, hloop⟩ := ih seen r h
      exact ⟨by simp [hmem], hseen, hloop⟩

theorem dedupRels_covers : ∀ (seen : List (String × String × String))
    (l : List Relation) (r : Relation), r ∈ l →
    r.from_entity ≠ r.to_entity →
    relKey r ∈ seen ∨ ∃ r' ∈ dedupRels seen l, relKey r' = relKey r := by
  intro seen l
  induction l generalizing seen with
  | nil => intro r h; simp at h
  | cons x xs ih =>
    intro r hmem hloop
    by_cases hc : (!(seen.contains (relKey x)) && x.from_entity != x.to_entity) = true
    · rw [dedupRels, if_pos hc]
      rcases List.mem_cons.mp hmem with rfl | hmem
      · exact Or.inr ⟨r, by simp, rfl⟩
      · rcases ih (relKey x :: seen) r hmem hloop with hk | ⟨r', hr', hkey⟩
        · rcases List.mem_cons.mp hk with hk | hk
          · exact Or.inr ⟨x, by simp, hk.symm⟩
          · exact Or.inl hk
        · exact Or.inr ⟨r', by simp [hr'], hkey⟩
    · rw [dedupRels, if_neg hc]
      rcases List.mem_cons.mp hmem with rfl | hmem
      · simp only [Bool.and_eq_true, Bool.not_eq_true', bne_iff_ne, not_and] at hc
        have hcont : seen.contains (relKey r) = true := by
          cases hfc : seen.contains (relKey r) with
          | false => exact absurd hloop (hc hfc)
          | true => rfl
        exact Or.inl ((contains_key_iff seen (relKey r)).mp hcont)
      · exact ih seen r hmem hloop

theorem dedupRels_keys_nodup : ∀ (seen : List (String × String × String))
    (l : List Relation), ((dedupRels seen l).map relKey).Nodup := by
  intro seen l
  induction l generalizing seen with
  | nil => simp [dedupRels]
  | cons x xs ih =>
    by_cases hc : (!(seen.contains (relKey x)) && x.from_entity != x.to_entity) = true
    · rw [dedupRels, if_pos hc]
      rw [List.map_cons, List.nodup_cons]
      refine ⟨?_, ih (relKey x :: seen)⟩
      intro hk
      obtain ⟨r', hr', hkey⟩ := List.mem_map.mp hk
      have := (dedupRels_sound (relKey x :: seen) xs r' hr').2.1
      exact this (by simp [hkey])
    · rw [dedupRels, if_neg hc]
      exact ih seen

theorem mem_mergeObservations (a b : List String) (o : String) :
    o ∈ mergeObservations a b ↔ o ∈ a ∨ o ∈ b := by
  simp only [mergeObservations, List.mem_append, List.mem_filter,
    Bool.not_eq_true']
  constructor
  · rintro (h | ⟨h, -⟩)
    · exact Or.inl h
    · exact Or.inr h
  · rintro (h | h)
    · exact Or.inl h
    · by_cases ha : o ∈ a
      · exact Or.inl ha
      · refine Or.inr ⟨h, ?_⟩
        rw [← Bool.not_eq_true]
        intro hcont
        rw [List.contains_iff_exists_mem_beq] at hcont
        obtain ⟨c, hc, hbeq⟩ := hcont
        obtain rfl : o = c := by simpa using hbeq
        exact ha hc

theorem nodup_mergeObservations (a b : List String)
    (ha : a.Nodup) (hb : b.Nodup) : (mergeObservations a b).Nodup := by
  rw [mergeObservations]
  refine List.Nodup.append ha (hb.filter _) ?_
  intro o hoa hob
  have := (List.mem_filter.mp hob).2
  rw [Bool.not_eq_true'] at this
  rw [(by
    rw [List.contains_iff_exists_mem_beq]
    exact ⟨o, hoa, by simp⟩ : a.contains o = true)] at this
  exact absurd this (by simp)

theorem find?_filter_of_imp (p q : α → Bool) (l : List α)
    (h : ∀ x, p x = true → q x = true) :
    (l.filter q).find? p = l.find? p := by
  induction l with
  | nil => simp
  | cons x xs ih =>
    by_cases hq : q x = true
    · rw [List.filter_cons_of_pos hq]
      by_cases hp : p x = true
      · rw [List.find?_cons_of_pos _ hp, List.find?_cons_of_pos _ hp]
      · rw [Bool.not_eq_true] at hp
        rw [List.find?_cons_of_neg _ (by simp [hp]), List.find?_cons_of_neg _ (by simp [hp]),
          ih]
    · rw [Bool.not_eq_true] at hq
      have hp : p x = false := by
        cases hpc : p x with
        | false => rfl
        | true => rw [h x hpc] at hq; exact absurd hq (by simp)
      rw [List.filter_cons_of_neg (by simp [hq]), List.find?_cons_of_neg _ (by simp [hp]),
        ih]

theorem redirect_avoids (source target : String) (hne : source ≠ target)
    (r : Relation) :
    (redirectRel source target r).from_entity ≠ source ∧
    (redirectRel source target r).to_entity ≠ source := by
  constructor
  · by_cases h : (r.from_entity == source) = true
    · simp only [redirectRel, h, if_true]
      exact fun he => hne he.symm
    · rw [Bool.not_eq_true] at h
      simp only [redirectRel, h, Bool.false_eq_true, if_false]
      intro he
      rw [he] at h
      simp at h
  · by_cases h : (r.to_entity == source) = true
    · simp only [redirectRel, h, if_true]
      exact fun he => hne he.symm
    · rw [Bool.not_eq_true] at h
      simp only [redirectRel, h, Bool.false_eq_true, if_false]
      intro he
      rw [he] at h
      simp at h

/-- C8 amended: merging a source into a **distinct** target removes the
source from the entity map, leaves no relation endpoint naming the
source, removes self-loops, deduplicates triples, covers (modulo that
deduplication and self-loop removal) every redirected pre-merge triple,
and gives the target the source observations it did not already have
appended after its own — the union without duplicates whenever the two
pre-merge lists are themselves duplicate-free (a source list holding
one observation twice keeps both copies, see the counterexample). -/
theorem C8_merge_entities (kg : KnowledgeGraph) (source target : String)
    (kg' : KnowledgeGraph) (hne : source ≠ target)
    (hmerge : _tool_merge_entities kg source target = some kg') :
    (kgFind kg' source = none) ∧
    (∀ r ∈ kg'.relations, r.from_entity ≠ source ∧ r.to_entity ≠ source) ∧
    (∀ r ∈ kg'.relations, r.from_entity ≠ r.to_entity) ∧
    ((kg'.relations.map relKey).Nodup) ∧
    (∀ r ∈ kg.relations,
      (redirectRel source target r).from_entity ≠ (redirectRel source target r).to_entity →
      ∃ r' ∈ kg'.relations, relKey r' = relKey (redirectRel source target r)) ∧
    (∀ se te, kgFind kg source = some se → kgFind kg target = some te →
      kgFind kg' target =
        some { te with observations := mergeObservations te.observations se.observations } ∧
      (∀ o, o ∈ mergeObservations te.observations se.observations ↔
        o ∈ te.observations ∨ o ∈ se.observations) ∧
      (te.observations.Nodup → se.observations.Nodup →
        (mergeObservations te.observations se.observations).Nodup)) := by
  rcases hs : kgFind kg source with _ | se0
  · rw [_tool_merge_entities, hs] at hmerge
    exact absurd hmerge (by simp)
  rcases ht : kgFind kg target with _ | te0
  · rw [_tool_merge_entities, hs, ht] at hmerge
    exact absurd hmerge (by simp)
  rw [_tool_merge_entities, hs, ht] at hmerge
  simp only [Option.some.injEq] at hmerge
  subst hmerge
  refine ⟨?_, ?_, ?_, ?_, ?_, ?_⟩
  · rw [kgFind]
    rw [Option.map_eq_none']
    rw [List.find?_eq_none]
    intro p hp
    have := (List.mem_filter.mp hp).2
    rw [Bool.not_eq_true'] at this
    simp [this]
  · intro r hr
    obtain ⟨hmem, -, -⟩ := dedupRels_sound [] _ r hr
    obtain ⟨r0, -, rfl⟩ := List.mem_map.mp hmem
    exact redirect_avoids source target hne r0
  · intro r hr
    exact (dedupRels_sound [] _ r hr).2.2
  · exact dedupRels_keys_nodup [] _
  · intro r hr hloop
    rcases dedupRels_covers [] _ (redirectRel source target r)
        (List.mem_map.mpr ⟨r, hr, rfl⟩) hloop with hk | hfound
    · simp at hk
    · exact hfound
  · intro se te hse hte
    obtain rfl : se0 = se := by simpa using hse
    obtain rfl : te0 = te := by simpa using hte
    refine ⟨?_, mem_mergeObservations te0.observations se0.observations,
      nodup_mergeObservations te0.observations se0.observations⟩
    rw [kgFind]
    rw [find?_filter_of_imp _ _ _ (by
      intro x hx
      have hxt : x.1 = target := by simpa using hx
      rw [Bool.not_eq_true']
      rw [hxt]
      simp only [beq_eq_false_iff_ne, ne_eq]
      exact fun he => hne he.symm)]
    rw [List.find?_map]
    have hpred : ((fun p : String × Entity => p.1 == target) ∘
        (fun p : String × Entity => if p.1 == target
          then (p.1,
            { p.2 with observations := mergeObservations p.2.observations se0.observations })
          else p)) = (fun p : String × Entity => p.1 == target) := by
      funext p
      simp only [Function.comp_apply]
      by_cases hp : (p.1 == target) = true
      · rw [if_pos hp]
      · rw [Bool.not_eq_true] at hp
        rw [if_neg (by simp [hp])]
    rw [hpred]
    have hfound : ∃ pr, kg.entities.find? (fun p => p.1 == target) = some pr ∧ pr.2 = te0 := by
      rw [kgFind] at ht
      rcases hfr : kg.entities.find? (fun p => p.1 == target) with _ | pr
      · rw [hfr] at ht; simp at ht
      · rw [hfr] at ht
        exact ⟨pr, hfr, by simpa using ht⟩
    obtain ⟨pr, hfr, hpr2⟩ := hfound
    have hpr1 : (pr.1 == target) = true := by
      have h := List.find?_some hfr
      exact h
    rw [hfr]
    simp only [Option.map_some', if_pos hpr1, hpr2]

/-- The store of the duplicate-observation counterexample: the source
`beta` holds the observation `"b1"` twice. -/
def c8Kg : KnowledgeGraph :=
  { entities :=
      [("alpha", { name := "alpha", entity_type := "T",
                   observations := ["a1"], created := "C" }),
       ("beta", { name := "beta", entity_type := "T",
                  observations := ["b1", "b1"], created := "C" })],
    relations := [], last_sync := "" }

/-- C8 as stated is false: `existing` is never extended inside the
observation loop, so merging `beta` (observations `["b1", "b1"]`) into
`alpha` (observations `["a1"]`) appends **both** copies, and the
resulting observation list is not duplicate-free. -/
theorem C8_counterexample :
    (_tool_merge_entities c8Kg "beta" "alpha").map
        (fun kg' => (kgFind kg' "alpha").map (fun e => e.observations)) =
      some (some ["a1", "b1", "b1"]) ∧
    ¬ (["a1", "b1", "b1"] : List String).Nodup := by
  constructor
  · rfl
  · decide

/-- Scenario S5 of the spec, used as the witness input. -/
def c8S5 : KnowledgeGraph :=
  { entities :=
      [("alpha", { name := "alpha", entity_type := "T",
                   observations := ["a1", "a2"], created := "C" }),
       ("beta", { name := "beta", entity_type := "T",
                  observations := ["a2", "b1"], created := "C" }),
       ("gamma", { name := "gamma", entity_type := "T",
                   observations := [], created := "C" })],
    relations :=
      [{ from_entity := "alpha", relation_type := "uses", to_entity := "gamma", created := "C" },
       { from_entity := "beta", relation_type := "uses", to_entity := "gamma", created := "C" },
       { from_entity := "alpha", relation_type := "owns", to_entity := "beta", created := "C" }],
    last_sync := "" }

/-- The merge of S5, computed by the embedded code. -/
def c8S5Merged : KnowledgeGraph :=
  { entities :=
      [("alpha", { name := "alpha", entity_type := "T",
                   observations := ["a1", "a2", "b1"], created := "C" }),
       ("gamma", { name := "gamma", entity_type := "T",
                   observations := [], created := "C" })],
    relations :=
      [{ from_entity := "alpha", relation_type := "uses", to_entity := "gamma", created := "C" }],
    last_sync := "" }

/-- Witness: on scenario S5 the merged graph no longer contains `beta`. -/
theorem C8_merge_entities_witness : kgFind c8S5Merged "beta" = none :=
  (C8_merge_entities c8S5 "beta" "alpha" c8S5Merged (by decide) (by rfl)).1

/-! ## C9: durable-store loading -/

/-- C9 as stated is false: a knowledge-graph primary that decodes to a
JSON array (valid JSON, wrong shape) makes `from_dict` raise
`AttributeError`, which the `except` clause does not catch — the load
raises instead of falling back, even with a perfectly good backup. -/
theorem C9_counterexample :
    load_knowledge (FileReadState.readable KGDoc.jsonNonDict)
      (FileReadState.readable (KGDoc.jsonDict emptyGraph)) =
      Except.error PyError.attributeError := rfl

/-- C9 amended: the task loader is total and never raises — an
unreadable or undecodable primary falls back to the backup, and when
the backup is not a well-formed task list either the corrupt primary is
renamed aside and the empty store returned, while a decodable primary
of the wrong shape yields the empty store with no backup consultation
and no rename; the knowledge-graph loader raises exactly when the
primary is unreadable or decodes to a non-object, and on the caught
corruption kinds falls back to the backup or, failing that, to the
empty graph — without ever renaming the primary aside. -/
theorem C9_load_fallback (p b : FileReadState KGDoc) (tp tb : FileReadState TasksDoc) :
    ((∃ e, load_knowledge p b = Except.error e) ↔
      (p = FileReadState.unreadable ∨ p = FileReadState.readable KGDoc.jsonNonDict)) ∧
    (∀ kg, (p = FileReadState.readable KGDoc.notJson ∨
        p = FileReadState.readable KGDoc.jsonDictBad) →
      b = FileReadState.readable (KGDoc.jsonDict kg) →
      load_knowledge p b = Except.ok kg) ∧
    ((p = FileReadState.readable KGDoc.notJson ∨
        p = FileReadState.readable KGDoc.jsonDictBad) →
      (∀ kg, b ≠ FileReadState.readable (KGDoc.jsonDict kg)) →
      load_knowledge p b = Except.ok emptyGraph) ∧
    (∀ ts, tp = FileReadState.readable (TasksDoc.jsonList ts) →
      _load_tasks tp tb = (ts, false)) ∧
    (tp = FileReadState.readable TasksDoc.jsonNonList →
      _load_tasks tp tb = ([], false)) ∧
    ((tp = FileReadState.unreadable ∨ tp = FileReadState.readable TasksDoc.notJson) →
      ((∀ ts, tb = FileReadState.readable (TasksDoc.jsonList ts) →
          _load_tasks tp tb = (ts, false)) ∧
       ((∀ ts, tb ≠ FileReadState.readable (TasksDoc.jsonList ts)) →
          _load_tasks tp tb = ([], true)))) := by
  refine ⟨?_, ?_, ?_, ?_, ?_, ?_⟩
  · cases p with
    | absent => simp [load_knowledge]
    | unreadable => simp [load_knowledge]
    | readable doc =>
      cases doc with
      | notJson =>
        cases b with
        | absent => simp [load_knowledge]
        | unreadable => simp [load_knowledge]
        | readable bd => cases bd <;> simp [load_knowledge]
      | jsonNonDict => simp [load_knowledge]
      | jsonDictBad =>
        cases b with
        | absent => simp [load_knowledge]
        | unreadable => simp [load_knowledge]
        | readable bd => cases bd <;> simp [load_knowledge]
      | jsonDict kg => simp [load_knowledge]
  · rintro kg (rfl | rfl) rfl <;> rfl
  · rintro (rfl | rfl) hb <;>
      (cases b with
      | absent => rfl
      | unreadable => rfl
      | readable bd =>
        cases bd with
        | jsonDict kg => exact absurd rfl (hb kg)
        | notJson => rfl
        | jsonNonDict => rfl
        | jsonDictBad => rfl)
  · rintro ts rfl; rfl
  · rintro rfl; rfl
  · rintro (rfl | rfl) <;>
      refine ⟨by rintro ts rfl; rfl, ?_⟩ <;>
      (intro hb
       cases tb with
       | absent => rfl
       | unreadable => rfl
       | readable bd =>
         cases bd with
         | jsonList ts => exact absurd rfl (hb ts)
         | notJson => rfl
         | jsonNonList => rfl)

/-- Witness: with an undecodable task primary and an intact backup the
loader returns the backup's tasks without renaming anything. -/
theorem C9_load_fallback_witness :
    _load_tasks (FileReadState.readable TasksDoc.notJson)
      (FileReadState.readable (TasksDoc.jsonList [])) = ([], false) :=
  ((C9_load_fallback FileReadState.absent FileReadState.absent
    (FileReadState.readable TasksDoc.notJson)
    (FileReadState.readable (TasksDoc.jsonList []))).2.2.2.2.2
      (Or.inr rfl)).1 [] rfl

/-! ## C10: update_task touches only the six editable fields of a
pending task -/

/-- C10: `update_task` fails (returning null, store unchanged) when no
task has the id or the first task with the id is not pending; on a
pending task it replaces exactly that task with the updated copy,
leaving every other task in place, and the update changes only the
caller-supplied keys among title / description / project / priority /
scope / dependencies — id, status, claim fields, timestamps, result,
artifacts and notes are untouched. -/
theorem C10_update_task (tasks : List Task) (tid : String) (u : TaskUpdate) :
    ((∀ t ∈ tasks, t.id ≠ tid) → update_task tasks tid u = (none, tasks)) ∧
    (∀ t, tasks.find? (fun x => x.id == tid) = some t → t.status ≠ "pending" →
      update_task tasks tid u = (none, tasks)) ∧
    (∀ t, tasks.find? (fun x => x.id == tid) = some t → t.status = "pending" →
      ∃ pre post, tasks = pre ++ t :: post ∧ (∀ x ∈ pre, x.id ≠ tid) ∧
        update_task tasks tid u =
          (some (applyUpdate u t), pre ++ applyUpdate u t :: post)) ∧
    (∀ t, (applyUpdate u t).id = t.id ∧ (applyUpdate u t).status = t.status ∧
      (applyUpdate u t).claimed_by = t.claimed_by ∧
      (applyUpdate u t).claimed_at = t.claimed_at ∧
      (applyUpdate u t).started_at = t.started_at ∧
      (applyUpdate u t).completed_at = t.completed_at ∧
      (applyUpdate u t).result = t.result ∧
      (applyUpdate u t).artifacts = t.artifacts ∧
      (applyUpdate u t).notes = t.notes ∧
      (applyUpdate u t).created_by = t.created_by ∧
      (applyUpdate u t).created_at = t.created_at ∧
      (applyUpdate u t).title = u.title.getD t.title ∧
      (applyUpdate u t).description = u.description.getD t.description ∧
      (applyUpdate u t).project = u.project.getD t.project ∧
      (applyUpdate u t).priority = u.priority.getD t.priority ∧
      (applyUpdate u t).scope = u.scope.getD t.scope ∧
      (applyUpdate u t).dependencies = u.dependencies.getD t.dependencies) := by
  refine ⟨?_, ?_, ?_, ?_⟩
  · intro h
    rw [update_task]
    exact overFirst_of_no_match tid _ tasks
      (fun x hx => by simp [h x hx])
  · intro t hfind hst
    obtain ⟨pre, post, rfl, hpre⟩ := find?_split _ tasks t hfind
    have ht : (t.id == tid) = true := by
      have h := List.find?_some hfind
      exact h
    rw [update_task]
    rw [overFirst_append_none tid _ pre post t hpre ht
      (by simp only [if_pos (show (t.status != "pending") = true by simp [hst])])]
  · intro t hfind hst
    obtain ⟨pre, post, rfl, hpre⟩ := find?_split _ tasks t hfind
    have ht : (t.id == tid) = true := by
      have h := List.find?_some hfind
      exact h
    refine ⟨pre, post, rfl, fun x hx => by simpa using hpre x hx, ?_⟩
    rw [update_task]
    rw [overFirst_append_some tid _ pre post t (applyUpdate u t) hpre ht
      (by simp only [hst]; rw [if_neg (by simp)])]
  · intro t
    refine ⟨rfl, rfl, rfl, rfl, rfl, rfl, rfl, rfl, rfl, rfl, rfl, rfl, rfl, rfl,
      rfl, rfl, rfl⟩

end HowellBrain
